import Mathlib

/-!
# Verification of the web-search-agent-evals orchestration scripts

A shallow embedding of `scripts/run.ts` and `scripts/shared/args.ts`
(argument parsing, the agent × search-provider run matrix, environment
variable injection, completion tracking, the dry-run execution plan) and,
for the components whose sources are only referenced from `run.ts`
(`concurrency-limiter.ts`, `reporting.ts`), models built from the
repository specification.  Theorems about the claims follow the
definitions.
-/

namespace WebSearchEvals


instance {ε α : Type} [DecidableEq ε] [DecidableEq α] : DecidableEq (Except ε α) := fun x y =>
  match x, y with
  | .error a, .error b =>
    if h : a = b then .isTrue (by rw [h]) else .isFalse (by simp [h])
  | .ok a, .ok b =>
    if h : a = b then .isTrue (by rw [h]) else .isFalse (by simp [h])
  | .error _, .ok _ => .isFalse (by simp)
  | .ok _, .error _ => .isFalse (by simp)

/-! ## Agents and providers

`ALL_AGENTS` lives in `shared.constants.ts` and `MCP_SERVERS` in
`mcp-servers.ts`; neither file is part of the sources at hand. -/

/-- Modelled from the spec: `ALL_AGENTS` from `shared.constants.ts` (file not
present); the agent list is documented in the `run.ts` header:
claude-code, gemini, droid, codex. -/
def ALL_AGENTS : List String := ["claude-code", "gemini", "droid", "codex"]

/-- Modelled from the spec: the keys of `MCP_SERVERS` from `mcp-servers.ts`
(file not present); the README documents the You.com MCP server as the
only MCP search provider. -/
def mcpServerKeys : List String := ["you"]

/-- Valid search providers: "builtin" plus the MCP server keys
(`args.ts` line 22). -/
def validProviders : List String := "builtin" :: mcpServerKeys

/-! ## Concurrency values

`args.ts` maps the flag value `0` to the JavaScript `Infinity` sentinel.
Following the design note of the spec we embed that number as a tagged
variant: `bounded k` for a finite cap, `unbounded` for `Infinity`. -/

inductive Concurrency where
  | bounded (k : Nat)
  | unbounded
deriving DecidableEq, Repr

/-- A concurrency cap is positive when it is unbounded or a finite cap of at
least one; `parseCommonArgs` only ever produces such caps. -/
def Concurrency.isPos : Concurrency → Bool
  | .bounded k => k != 0
  | .unbounded => true

/-! ## JavaScript integer parsing

`Number.parseInt(arg, 10)`: skip leading whitespace, read an optional
sign, then take the longest prefix of decimal digits; no digits means
`NaN` (embedded as `none`). -/

/-- Numeric value of a list of decimal digit characters. -/
def digitsToNat (ds : List Char) : Nat :=
  ds.foldl (fun acc c => acc * 10 + (c.toNat - 48)) 0

/-- Embedding of `Number.parseInt(s, 10)`; `none` is JavaScript `NaN`. -/
def parseIntJS (s : String) : Option Int :=
  let cs := s.toList.dropWhile (fun c => c.isWhitespace)
  match cs with
  | '-' :: rest =>
    let ds := rest.takeWhile (fun c => c.isDigit)
    if ds.isEmpty then none else some (-(digitsToNat ds : Int))
  | '+' :: rest =>
    let ds := rest.takeWhile (fun c => c.isDigit)
    if ds.isEmpty then none else some (digitsToNat ds : Int)
  | rest =>
    let ds := rest.takeWhile (fun c => c.isDigit)
    if ds.isEmpty then none else some (digitsToNat ds : Int)

/-! ## Common options (`args.ts`) -/

/-- The `CommonOptions` record of `args.ts`, with the concurrency number
embedded as the tagged `Concurrency` type. -/
structure CommonOptions where
  agents : List String
  mode : Option String
  searchProvider : Option String
  concurrency : Option Concurrency
  promptConcurrency : Option Nat
  dryRun : Bool
deriving DecidableEq, Repr

/-- The accumulator state at the top of the parsing loop of
`parseCommonArgs` (`args.ts` lines 15-20). -/
def initOptions : CommonOptions :=
  { agents := [], mode := none, searchProvider := none,
    concurrency := none, promptConcurrency := none, dryRun := false }

/-- Result of handling one flag (with its following argument available):
an error, consume two arguments, or consume one argument. -/
inductive StepRes where
  | err (e : String)
  | consume2 (o : CommonOptions)
  | consume1 (o : CommonOptions)
deriving DecidableEq, Repr

/-- One iteration of the parsing loop of `parseCommonArgs` when a next
argument `v` exists after `a` (`args.ts` lines 25-68). -/
def stepArg (a v : String) (o : CommonOptions) : StepRes :=
  if a = "--agent" then
    if v ∈ ALL_AGENTS then
      .consume2 { o with agents := o.agents ++ [v] }
    else .err ("Invalid agent: " ++ v)
  else if a = "--mode" then
    if v = "test" ∨ v = "full" then .consume2 { o with mode := some v }
    else .err ("Invalid mode: " ++ v)
  else if a = "--search-provider" ∨ a = "--mcp" then
    if v ∈ validProviders then .consume2 { o with searchProvider := some v }
    else .err ("Invalid search provider: " ++ v)
  else if a = "-j" ∨ a = "--concurrency" then
    if v = "" then .err "Missing value for concurrency flag"
    else
      match parseIntJS v with
      | none => .err ("Invalid concurrency: " ++ v)
      | some n =>
        if n < 0 then .err ("Invalid concurrency: " ++ v)
        else if n = 0 then .consume2 { o with concurrency := some .unbounded }
        else .consume2 { o with concurrency := some (.bounded n.toNat) }
  else if a = "--prompt-concurrency" then
    if v = "" then .err "Missing value for prompt-concurrency flag"
    else
      match parseIntJS v with
      | none => .err ("Invalid prompt-concurrency: " ++ v)
      | some n =>
        if n < 1 then .err ("Invalid prompt-concurrency: " ++ v)
        else .consume2 { o with promptConcurrency := some n.toNat }
  else if a = "--dry-run" then .consume1 { o with dryRun := true }
  else .consume1 o

/-- The parsing loop of `parseCommonArgs` (`args.ts` lines 24-69).  A
value-taking flag in last position matches no branch (the `i + 1 <
args.length` guard fails) and is skipped. -/
def parseArgsFrom : List String → CommonOptions → Except String CommonOptions
  | [], o => .ok o
  | [a], o => .ok (if a = "--dry-run" then { o with dryRun := true } else o)
  | a :: v :: rest, o =>
    match stepArg a v o with
    | .err e => .error e
    | .consume2 o2 => parseArgsFrom rest o2
    | .consume1 o1 => parseArgsFrom (v :: rest) o1

/-- `parseCommonArgs` (`args.ts` lines 14-79): run the loop, then default
the agents list to `ALL_AGENTS` when no agent was selected. -/
def parseCommonArgs (args : List String) : Except String CommonOptions :=
  match parseArgsFrom args initOptions with
  | .error e => .error e
  | .ok o => .ok { o with agents := if o.agents.isEmpty then ALL_AGENTS else o.agents }

/-! ## Indexed lists

`enumFrom k l` pairs each element of `l` with its position counted from
`k`; it embeds the indexed loops and `.map((x, index) => ...)` calls of
`run.ts`. -/

/-- Pair every element of a list with its index, starting at `k`. -/
def enumFrom (k : Nat) : List α → List (Nat × α)
  | [] => []
  | a :: l => (k, a) :: enumFrom (k + 1) l

/-! ## The run matrix (`run.ts` lines 108-122) -/

/-- The `RunConfig` record: one agent × search-provider pairing. -/
structure RunConfig where
  agent : String
  searchProvider : String
deriving DecidableEq, Repr

/-- The search providers to test (`run.ts` lines 109-112): the explicit
provider when one was selected, otherwise "builtin" followed by every MCP
server key. -/
def searchProvidersFor (o : CommonOptions) : List String :=
  match o.searchProvider with
  | some sp => [sp]
  | none => "builtin" :: mcpServerKeys

/-- The execution list (`run.ts` lines 117-122): each agent runs with each
search provider, agents outermost. -/
def buildRuns (agents providers : List String) : List RunConfig :=
  (agents.map (fun a => providers.map (fun p => ⟨a, p⟩))).flatten

/-! ## Scenario invocations (`run.ts` lines 156-176) -/

/-- The argument record handed to `runDockerScenario` for one scenario
(`run.ts` lines 160-171). -/
structure Invocation where
  agent : String
  searchProvider : String
  envVars : List String
  label : String
deriving DecidableEq, Repr

/-- The environment-variable argument list built at `run.ts` lines 163-170:
exactly `SEARCH_PROVIDER`, `DATASET` and `PROMPT_CONCURRENCY`, each behind
a `-e` flag. -/
def scenarioEnvVars (sp mode : String) (pc : Nat) : List String :=
  ["-e", "SEARCH_PROVIDER=" ++ sp,
   "-e", "DATASET=" ++ mode,
   "-e", "PROMPT_CONCURRENCY=" ++ toString pc]

/-- The scenario label of `run.ts` line 171. -/
def scenarioLabel (i total : Nat) (agent sp : String) : String :=
  "[" ++ toString (i + 1) ++ "/" ++ toString total ++ "] " ++ agent ++ "-" ++ sp

/-- The effective prompt concurrency (`run.ts` line 96):
`options.promptConcurrency ?? 1`. -/
def effectivePromptConcurrency (o : CommonOptions) : Nat :=
  o.promptConcurrency.getD 1

/-- The list of `runDockerScenario` invocations built by `main`
(`run.ts` lines 156-176). -/
def buildInvocations (runs : List RunConfig) (mode : String) (pc : Nat) : List Invocation :=
  (enumFrom 0 runs).map (fun p =>
    { agent := p.2.agent
      searchProvider := p.2.searchProvider
      envVars := scenarioEnvVars p.2.searchProvider mode pc
      label := scenarioLabel p.1 runs.length p.2.agent p.2.searchProvider })

/-! ## Completion tracking (`run.ts` lines 144 and 172-175) -/

/-- The `completed.add(index + 1)` update performed by each scenario's
completion callback (`run.ts` line 173). -/
def recordCompletion (completed : Finset Nat) (index : Nat) : Finset Nat :=
  insert (index + 1) completed

/-- The completed set after the scenarios with the given zero-based matrix
indices have finished, in that completion order, starting from the empty
set of `run.ts` line 144. -/
def completedAfter (events : List Nat) : Finset Nat :=
  events.foldl recordCompletion ∅

/-! ## Result aggregation

`printResultsSummary` and `handleExit` live in `reporting.ts`, which is
not among the sources; they are modelled from the spec. -/

/-- Modelled from the spec: the failure list of `printResultsSummary` in
`reporting.ts` (file not present) — the positions of the results whose
exit code is nonzero. -/
def computeFailures (results : List Int) : List Nat :=
  (enumFrom 0 results).filterMap (fun p => if p.2 ≠ 0 then some p.1 else none)

/-- Modelled from the spec: `handleExit` in `reporting.ts` (file not
present) — the overall exit code is 0 when there are no failures and
nonzero (1) otherwise. -/
def handleExit (failures : List Nat) : Nat :=
  if failures.isEmpty then 0 else 1

/-- Overall exit code of a run, as computed at `run.ts` lines 182-183. -/
def overallExitCode (results : List Int) : Nat :=
  handleExit (computeFailures results)

/-! ## The concurrency limiter

`limitConcurrency` lives in `concurrency-limiter.ts`, which is not among
the sources; the model below is built from the spec (section 4.1): an
ordered list of deferred tasks run with at most `k` in flight (or all at
once when unbounded), FIFO admission, results returned positionwise, a
rejecting task recorded as a failure entry at its index without aborting
the batch.

Asynchronous execution is embedded as a discrete-event simulation: a task
is a pair of a duration (ticks from start to settling, driving the
real-world completion order) and an outcome (fulfilment or rejection).
Each simulation step first admits pending tasks in input order up to the
cap, then advances one tick; tasks whose remaining time reaches zero
settle and record their outcome at their index.  The limiter itself is a
total function into a list of recorded outcomes — a rejection never
escapes it. -/

/-- Outcome of one deferred task: fulfilment with a value, or rejection
with a message. -/
inductive TaskOutcome (α : Type) where
  | ok (value : α)
  | failed (message : String)
deriving DecidableEq, Repr

/-- Modelled from the spec: one deferred task given to the limiter — its
simulated running time and how its future settles. -/
structure SimTask (α : Type) where
  duration : Nat
  outcome : TaskOutcome α
deriving DecidableEq, Repr

/-- A task in flight: its input index, remaining ticks, and the outcome it
will settle with. -/
structure RunningTask (α : Type) where
  index : Nat
  remaining : Nat
  outcome : TaskOutcome α
deriving DecidableEq, Repr

/-- State of the limiter: not-yet-started tasks in input order, tasks in
flight, and the outcomes recorded so far, indexed by input position. -/
structure LimState (α : Type) where
  pending : List (Nat × SimTask α)
  running : List (RunningTask α)
  results : Nat → Option (TaskOutcome α)

/-- How many pending tasks are admitted: all of them when unbounded,
otherwise enough to fill the cap. -/
def admitCount (cap : Concurrency) (pendingLen inFlight : Nat) : Nat :=
  match cap with
  | .unbounded => pendingLen
  | .bounded k => min pendingLen (k - inFlight)

/-- Start one pending task. -/
def startTask (p : Nat × SimTask α) : RunningTask α :=
  { index := p.1, remaining := p.2.duration, outcome := p.2.outcome }

/-- Admit pending tasks in input order (FIFO) until the cap is reached or
no tasks are pending. -/
def launchPending (cap : Concurrency) (st : LimState α) : LimState α :=
  { pending := st.pending.drop (admitCount cap st.pending.length st.running.length)
    running := st.running ++
      (st.pending.take (admitCount cap st.pending.length st.running.length)).map startTask
    results := st.results }

/-- Advance every in-flight task by one tick: tasks at zero settle (second
component), the others keep running with one tick less (first
component). -/
def tickSplit : List (RunningTask α) → List (RunningTask α) × List (Nat × TaskOutcome α)
  | [] => ([], [])
  | r :: rest =>
    if r.remaining = 0 then
      ((tickSplit rest).1, (r.index, r.outcome) :: (tickSplit rest).2)
    else
      ({ index := r.index, remaining := r.remaining - 1, outcome := r.outcome } :: (tickSplit rest).1,
       (tickSplit rest).2)

/-- Record the settled outcomes at their indices. -/
def recordResults : List (Nat × TaskOutcome α) → (Nat → Option (TaskOutcome α)) → Nat → Option (TaskOutcome α)
  | [], f => f
  | p :: rest, f => recordResults rest (Function.update f p.1 (some p.2))

/-- One tick of the simulation clock. -/
def tickState (st : LimState α) : LimState α :=
  { pending := st.pending
    running := (tickSplit st.running).1
    results := recordResults (tickSplit st.running).2 st.results }

/-- One full scheduler step: admit, then tick. -/
def stepState (cap : Concurrency) (st : LimState α) : LimState α :=
  tickState (launchPending cap st)

/-- Run the scheduler until nothing is pending or in flight (fuel-bounded;
`initFuel` is always enough fuel). -/
def simLoop (cap : Concurrency) : Nat → LimState α → LimState α
  | 0, st => st
  | fuel + 1, st =>
    if st.pending.isEmpty && st.running.isEmpty then st
    else simLoop cap fuel (stepState cap st)

/-- Termination measure: every unsettled task counts its remaining ticks
plus one. -/
def stateWeight (st : LimState α) : Nat :=
  (st.pending.map (fun p => p.2.duration + 1)).sum +
    (st.running.map (fun r => r.remaining + 1)).sum

/-- Initial limiter state on a task list: everything pending, nothing
recorded. -/
def initState (tasks : List (SimTask α)) : LimState α :=
  { pending := enumFrom 0 tasks, running := [], results := fun _ => none }

/-- Enough fuel to drain a task list. -/
def initFuel (tasks : List (SimTask α)) : Nat :=
  (tasks.map (fun t => t.duration + 1)).sum

/-- Modelled from the spec: `limitConcurrency` from
`concurrency-limiter.ts` (file not present) — run the ordered task list
under the cap and return the recorded outcome of task `i` at position
`i`. -/
def limitConcurrency (cap : Concurrency) (tasks : List (SimTask α)) : List (TaskOutcome α) :=
  (List.range tasks.length).map (fun i =>
    ((simLoop cap (initFuel tasks) (initState tasks)).results i).getD (.failed "unsettled"))

/-- In-flight part of the termination measure. -/
def runningWeight (l : List (RunningTask α)) : Nat :=
  (l.map (fun r => r.remaining + 1)).sum

/-! ### The scheduling invariant

Every input index is accounted for — pending, in flight, or recorded —
and every recorded or in-flight outcome is the outcome of the task at
that index. -/

/-- Outcome of the task at input position `i`. -/
def outcomeAt (tasks : List (SimTask α)) (i : Nat) : Option (TaskOutcome α) :=
  (tasks.get? i).map SimTask.outcome

structure SimInv (tasks : List (SimTask α)) (st : LimState α) : Prop where
  pending_ok : ∀ p ∈ st.pending, tasks.get? p.1 = some p.2
  running_ok : ∀ r ∈ st.running, outcomeAt tasks r.index = some r.outcome
  results_ok : ∀ i o, st.results i = some o → outcomeAt tasks i = some o
  covered : ∀ i, i < tasks.length →
    (st.results i).isSome = true ∨ (∃ p ∈ st.pending, p.1 = i) ∨ ∃ r ∈ st.running, r.index = i

/-! ### A large enough finite cap behaves exactly like the unbounded cap -/

/-- Number of tasks not yet settled. -/
def unsettledCount (st : LimState α) : Nat :=
  st.pending.length + st.running.length

/-! ## The status heartbeat

`createStatusHeartbeat` lives in `reporting.ts`, which is not among the
sources; it is modelled from the spec (section 4.3).  Time is wall-clock
milliseconds since `startTime`; the limiter settles (and `clearInterval`
runs, `run.ts` line 180) at `stopTime`.  A tick fires at every positive
multiple of the interval strictly before `stopTime`, and each tick reads
the completion count current at that moment (`completedCountAt`). -/

/-- The interval `main` configures for the heartbeat (`run.ts` line 151). -/
def mainHeartbeatIntervalMs : Nat := 30000

/-- Content of one heartbeat line: completed count, total count, elapsed
time and the concurrency setting. -/
structure HeartbeatLine where
  completedCount : Nat
  total : Nat
  elapsedMs : Nat
  concurrency : Concurrency
deriving DecidableEq, Repr

/-- Modelled from the spec: how many heartbeat ticks happen before the
heartbeat is stopped — the number of positive multiples of the interval
strictly below `stopTime`. -/
def tickIndexCount (intervalMs stopTime : Nat) : Nat :=
  if intervalMs = 0 then 0 else (stopTime + intervalMs - 1) / intervalMs - 1

/-- Modelled from the spec: the times at which the heartbeat fires —
`intervalMs`, `2 * intervalMs`, ... while strictly before `stopTime`. -/
def heartbeatTickTimes (intervalMs stopTime : Nat) : List Nat :=
  (List.range (tickIndexCount intervalMs stopTime)).map (fun j => (j + 1) * intervalMs)

/-- Modelled from the spec: `createStatusHeartbeat` from `reporting.ts`
(file not present) — the lines emitted while the limiter drains, one per
tick, each reading the completion count at its own tick time. -/
def heartbeatOutput (total : Nat) (conc : Concurrency) (intervalMs stopTime : Nat)
    (completedCountAt : Nat → Nat) : List HeartbeatLine :=
  (heartbeatTickTimes intervalMs stopTime).map
    (fun t => { completedCount := completedCountAt t, total := total,
                elapsedMs := t, concurrency := conc })

/-! ## The effect trace of `main` (`run.ts` lines 129-183)

A pure model of the externally visible actions of `main` once the
execution list is built: the dry-run branch prints the plan and exits 0
(`run.ts` lines 129-141) before the heartbeat is created (line 147) or
any scenario started (line 156); the live branch starts the heartbeat,
runs the scenarios, stops the heartbeat and exits with the aggregated
code. -/

inductive MainAction where
  | printLine (line : String)
  | startHeartbeat
  | runScenario (index : Nat)
  | stopHeartbeat
  | exitWith (code : Nat)
deriving DecidableEq, Repr

/-- The dry-run plan line assembled at `run.ts` lines 134-137. -/
def dryRunPlanLine (i total : Nat) (r : RunConfig) (mode : String) (pc : Nat) : String :=
  "  [" ++ toString (i + 1) ++ "/" ++ toString total ++ "] " ++ r.agent ++ "-" ++
    r.searchProvider ++ ": docker compose run --rm -e SEARCH_PROVIDER=" ++ r.searchProvider ++
    " -e DATASET=" ++ mode ++ " -e PROMPT_CONCURRENCY=" ++ toString pc ++ " " ++ r.agent

/-- Effect trace of `main` from the point where the execution list exists. -/
def mainTrace (runs : List RunConfig) (mode : String) (pc : Nat) (dryRun : Bool)
    (results : List Int) : List MainAction :=
  if dryRun then
    MainAction.printLine "[DRY RUN] Execution plan:" ::
      ((enumFrom 0 runs).map
          (fun p => MainAction.printLine (dryRunPlanLine p.1 runs.length p.2 mode pc)) ++
        [MainAction.printLine "[DRY RUN] No services were executed.", MainAction.exitWith 0])
  else
    MainAction.startHeartbeat ::
      ((enumFrom 0 runs).map (fun p => MainAction.runScenario p.1) ++
        [MainAction.stopHeartbeat, MainAction.exitWith (overallExitCode results)])

/-! ## Properties -/

example : parseCommonArgs ["-j", "0"] =
    .ok { initOptions with agents := ALL_AGENTS, concurrency := some .unbounded } := by decide

example : parseCommonArgs ["-j", "4"] =
    .ok { initOptions with agents := ALL_AGENTS, concurrency := some (.bounded 4) } := by decide

example : parseCommonArgs ["-j", "-2"] = .error "Invalid concurrency: -2" := by decide

example : parseCommonArgs ["--agent", "gemini", "--dry-run"] =
    .ok { initOptions with agents := ["gemini"], dryRun := true } := by decide

example : parseCommonArgs ["--agent", "vim"] = .error "Invalid agent: vim" := by decide

theorem enumFrom_length (k : Nat) (l : List α) : (enumFrom k l).length = l.length := by
  induction l generalizing k with
  | nil => rfl
  | cons a l ih => simp [enumFrom, ih]

theorem mem_enumFrom {k : Nat} {l : List α} {p : Nat × α} (hp : p ∈ enumFrom k l) :
    k ≤ p.1 ∧ l.get? (p.1 - k) = some p.2 := by
  induction l generalizing k with
  | nil => simp [enumFrom] at hp
  | cons a l ih =>
    simp only [enumFrom, List.mem_cons] at hp
    rcases hp with h | h
    · subst h
      simp [List.get?]
    · obtain ⟨h1, h2⟩ := ih h
      refine ⟨by omega, ?_⟩
      have hk : p.1 - k = (p.1 - (k + 1)) + 1 := by omega
      rw [hk]
      simpa [List.get?] using h2

theorem enumFrom_coverage {l : List α} (k : Nat) {j : Nat} (hj : j < l.length) :
    ∃ a, l.get? j = some a ∧ (k + j, a) ∈ enumFrom k l := by
  induction l generalizing k j with
  | nil => simp at hj
  | cons b l ih =>
    cases j with
    | zero => exact ⟨b, rfl, by simp [enumFrom]⟩
    | succ j =>
      obtain ⟨a, ha, hmem⟩ := ih (k + 1) (by simpa using hj)
      refine ⟨a, by simpa [List.get?] using ha, ?_⟩
      have : (k + 1) + j = k + (j + 1) := by omega
      simp only [enumFrom, List.mem_cons]
      exact Or.inr (this ▸ hmem)

theorem enumFrom_get? {l : List α} (k : Nat) {j : Nat} (hj : j < l.length) :
    (enumFrom k l).get? j = (l.get? j).map (fun a => (k + j, a)) := by
  induction l generalizing k j with
  | nil => simp at hj
  | cons b l ih =>
    cases j with
    | zero => simp [enumFrom, List.get?]
    | succ j =>
      have : k + (j + 1) = (k + 1) + j := by omega
      simp only [enumFrom, List.get?, this]
      exact ih (k + 1) (by simpa using hj)

theorem buildRuns_length (agents providers : List String) :
    (buildRuns agents providers).length = agents.length * providers.length := by
  induction agents with
  | nil => simp [buildRuns]
  | cons a l ih =>
    simp only [buildRuns, List.map_cons, List.flatten] at ih ⊢
    simp [ih, Nat.succ_mul, Nat.add_comm]

theorem completedAfter_from (events : List Nat) :
    ∀ (s : Finset Nat) (i : Nat),
      i ∈ events.foldl recordCompletion s ↔ i ∈ s ∨ ∃ j ∈ events, i = j + 1 := by
  induction events with
  | nil => simp
  | cons e l ih =>
    intro s i
    simp only [List.foldl_cons, ih, recordCompletion, Finset.mem_insert, List.mem_cons]
    constructor
    · rintro ((h | h) | ⟨j, hj, hij⟩)
      · exact Or.inr ⟨e, Or.inl rfl, h⟩
      · exact Or.inl h
      · exact Or.inr ⟨j, Or.inr hj, hij⟩
    · rintro (h | ⟨j, (hj | hj), hij⟩)
      · exact Or.inl (Or.inr h)
      · exact Or.inl (Or.inl (hj ▸ hij))
      · exact Or.inr ⟨j, hj, hij⟩

example : overallExitCode [0, 0, 0] = 0 := by decide

example : overallExitCode [0, 2, 0] = 1 := by decide

example : overallExitCode [] = 0 := by decide

example :
    limitConcurrency (.bounded 2)
      [⟨3, .ok 10⟩, ⟨1, .ok 20⟩, ⟨0, .ok 30⟩, ⟨2, .failed "boom"⟩] =
      ([.ok 10, .ok 20, .ok 30, .failed "boom"] : List (TaskOutcome Nat)) := by decide

example :
    limitConcurrency .unbounded
      [⟨3, .ok 10⟩, ⟨0, .failed "boom"⟩, ⟨1, .ok 30⟩] =
      ([.ok 10, .failed "boom", .ok 30] : List (TaskOutcome Nat)) := by decide

/-! ### Facts about one tick -/

theorem tickSplit_stay_mem {l : List (RunningTask α)} :
    ∀ r ∈ (tickSplit l).1, ∃ r0 ∈ l, r0.index = r.index ∧ r0.outcome = r.outcome := by
  induction l with
  | nil => simp [tickSplit]
  | cons a l ih =>
    intro r hr
    by_cases h : a.remaining = 0
    · simp only [tickSplit, if_pos h] at hr
      obtain ⟨r0, h1, h2⟩ := ih r hr
      exact ⟨r0, List.mem_cons_of_mem _ h1, h2⟩
    · simp only [tickSplit, if_neg h, List.mem_cons] at hr
      rcases hr with rfl | hr
      · exact ⟨a, List.mem_cons_self _ _, rfl, rfl⟩
      · obtain ⟨r0, h1, h2⟩ := ih r hr
        exact ⟨r0, List.mem_cons_of_mem _ h1, h2⟩

theorem tickSplit_settled_mem {l : List (RunningTask α)} :
    ∀ p ∈ (tickSplit l).2, ∃ r0 ∈ l, r0.index = p.1 ∧ r0.outcome = p.2 := by
  induction l with
  | nil => simp [tickSplit]
  | cons a l ih =>
    intro p hp
    by_cases h : a.remaining = 0
    · simp only [tickSplit, if_pos h, List.mem_cons] at hp
      rcases hp with rfl | hp
      · exact ⟨a, List.mem_cons_self _ _, rfl, rfl⟩
      · obtain ⟨r0, h1, h2⟩ := ih p hp
        exact ⟨r0, List.mem_cons_of_mem _ h1, h2⟩
    · simp only [tickSplit, if_neg h] at hp
      obtain ⟨r0, h1, h2⟩ := ih p hp
      exact ⟨r0, List.mem_cons_of_mem _ h1, h2⟩

theorem tickSplit_coverage {l : List (RunningTask α)} :
    ∀ r0 ∈ l, (∃ r ∈ (tickSplit l).1, r.index = r0.index) ∨
      ∃ p ∈ (tickSplit l).2, p.1 = r0.index := by
  induction l with
  | nil => simp
  | cons a l ih =>
    intro r0 hr0
    rcases List.mem_cons.mp hr0 with rfl | hr0
    · by_cases h : r0.remaining = 0
      · exact Or.inr ⟨(r0.index, r0.outcome), by simp [tickSplit, if_pos h], rfl⟩
      · exact Or.inl ⟨⟨r0.index, r0.remaining - 1, r0.outcome⟩, by simp [tickSplit, if_neg h], rfl⟩
    · rcases ih r0 hr0 with ⟨r, hr, hi⟩ | ⟨p, hp, hi⟩
      · refine Or.inl ⟨r, ?_, hi⟩
        by_cases h : a.remaining = 0 <;> simp [tickSplit, h, hr]
      · refine Or.inr ⟨p, ?_, hi⟩
        by_cases h : a.remaining = 0 <;> simp [tickSplit, h, hp]

theorem tickSplit_weight (l : List (RunningTask α)) :
    runningWeight (tickSplit l).1 + l.length = runningWeight l := by
  induction l with
  | nil => simp [tickSplit, runningWeight]
  | cons a l ih =>
    by_cases h : a.remaining = 0
    · simp only [tickSplit, if_pos h, runningWeight, List.map_cons, List.sum_cons,
        List.length_cons] at ih ⊢
      omega
    · simp only [tickSplit, if_neg h, runningWeight, List.map_cons, List.sum_cons,
        List.length_cons] at ih ⊢
      omega

theorem tickSplit_length (l : List (RunningTask α)) :
    (tickSplit l).1.length + (tickSplit l).2.length = l.length := by
  induction l with
  | nil => simp [tickSplit]
  | cons a l ih =>
    by_cases h : a.remaining = 0
    · simp only [tickSplit, if_pos h, List.length_cons]
      omega
    · simp only [tickSplit, if_neg h, List.length_cons]
      omega

/-! ### Facts about recording results -/

theorem recordResults_some {l : List (Nat × TaskOutcome α)} :
    ∀ (f : Nat → Option (TaskOutcome α)) (i : Nat) (o : TaskOutcome α),
      recordResults l f i = some o → (i, o) ∈ l ∨ f i = some o := by
  induction l with
  | nil => exact fun f i o h => Or.inr h
  | cons p rest ih =>
    intro f i o h
    rcases ih _ i o h with h1 | h1
    · exact Or.inl (List.mem_cons_of_mem _ h1)
    · by_cases hip : i = p.1
      · subst hip
        rw [Function.update_same] at h1
        obtain rfl := Option.some.inj h1
        exact Or.inl (by simp)
      · rw [Function.update_noteq hip] at h1
        exact Or.inr h1

theorem recordResults_isSome_mono {l : List (Nat × TaskOutcome α)} :
    ∀ (f : Nat → Option (TaskOutcome α)) (i : Nat),
      (f i).isSome = true → (recordResults l f i).isSome = true := by
  induction l with
  | nil => exact fun f i h => h
  | cons p rest ih =>
    intro f i h
    apply ih
    by_cases hip : i = p.1
    · subst hip; rw [Function.update_same]; rfl
    · rwa [Function.update_noteq hip]

theorem recordResults_isSome_of_mem {l : List (Nat × TaskOutcome α)} :
    ∀ (f : Nat → Option (TaskOutcome α)) (p : Nat × TaskOutcome α),
      p ∈ l → (recordResults l f p.1).isSome = true := by
  induction l with
  | nil => simp
  | cons q rest ih =>
    intro f p hp
    rcases List.mem_cons.mp hp with rfl | hp
    · show (recordResults rest (Function.update f p.1 (some p.2)) p.1).isSome = true
      apply recordResults_isSome_mono
      rw [Function.update_same]; rfl
    · exact ih _ p hp

theorem simInv_init (tasks : List (SimTask α)) : SimInv tasks (initState tasks) := by
  refine ⟨?_, ?_, ?_, ?_⟩
  · intro p hp
    have := mem_enumFrom hp
    simpa using this.2
  · intro r hr; simp [initState] at hr
  · intro i o h; simp [initState] at h
  · intro i hi
    obtain ⟨a, _, hmem⟩ := enumFrom_coverage 0 hi
    exact Or.inr (Or.inl ⟨(i, a), by simpa using hmem, rfl⟩)

theorem simInv_launchPending (cap : Concurrency) {tasks : List (SimTask α)} {st : LimState α}
    (h : SimInv tasks st) : SimInv tasks (launchPending cap st) := by
  set n := admitCount cap st.pending.length st.running.length with hn
  refine ⟨?_, ?_, ?_, ?_⟩
  · intro p hp
    exact h.pending_ok p (List.drop_subset n st.pending hp)
  · intro r hr
    rcases List.mem_append.mp hr with hr | hr
    · exact h.running_ok r hr
    · obtain ⟨p, hp, rfl⟩ := List.mem_map.mp hr
      have hp2 : p ∈ st.pending := List.take_subset n st.pending hp
      have := h.pending_ok p hp2
      simp only [startTask, outcomeAt, this]
      rfl
  · exact h.results_ok
  · intro i hi
    rcases h.covered i hi with hres | ⟨p, hp, hpi⟩ | ⟨r, hr, hri⟩
    · exact Or.inl hres
    · rw [← List.take_append_drop n st.pending] at hp
      rcases List.mem_append.mp hp with hp | hp
      · exact Or.inr (Or.inr ⟨startTask p, List.mem_append.mpr (Or.inr (List.mem_map.mpr ⟨p, hp, rfl⟩)), hpi⟩)
      · exact Or.inr (Or.inl ⟨p, hp, hpi⟩)
    · exact Or.inr (Or.inr ⟨r, List.mem_append.mpr (Or.inl hr), hri⟩)

theorem simInv_tickState {tasks : List (SimTask α)} {st : LimState α}
    (h : SimInv tasks st) : SimInv tasks (tickState st) := by
  refine ⟨h.pending_ok, ?_, ?_, ?_⟩
  · intro r hr
    obtain ⟨r0, hr0, hidx, hout⟩ := tickSplit_stay_mem r hr
    rw [← hidx, ← hout]
    exact h.running_ok r0 hr0
  · intro i o hio
    rcases recordResults_some st.results i o hio with hmem | hold
    · obtain ⟨r0, hr0, hidx, hout⟩ := tickSplit_settled_mem (i, o) hmem
      have := h.running_ok r0 hr0
      rw [hidx, hout] at this
      exact this
    · exact h.results_ok i o hold
  · intro i hi
    rcases h.covered i hi with hres | ⟨p, hp, hpi⟩ | ⟨r, hr, hri⟩
    · exact Or.inl (recordResults_isSome_mono st.results i hres)
    · exact Or.inr (Or.inl ⟨p, hp, hpi⟩)
    · rcases tickSplit_coverage r hr with ⟨r2, hr2, hi2⟩ | ⟨p2, hp2, hi2⟩
      · exact Or.inr (Or.inr ⟨r2, hr2, hi2.trans hri⟩)
      · refine Or.inl ?_
        have := recordResults_isSome_of_mem (l := (tickSplit st.running).2) st.results p2 hp2
        rwa [hi2, hri] at this

theorem simInv_stepState (cap : Concurrency) {tasks : List (SimTask α)} {st : LimState α}
    (h : SimInv tasks st) : SimInv tasks (stepState cap st) :=
  simInv_tickState (simInv_launchPending cap h)

theorem simInv_simLoop (cap : Concurrency) {tasks : List (SimTask α)} :
    ∀ (fuel : Nat) (st : LimState α), SimInv tasks st → SimInv tasks (simLoop cap fuel st) := by
  intro fuel
  induction fuel with
  | zero => exact fun st h => h
  | succ fuel ih =>
    intro st h
    rw [simLoop]
    by_cases he : st.pending.isEmpty && st.running.isEmpty
    · rwa [if_pos he]
    · rw [if_neg he]
      exact ih _ (simInv_stepState cap h)

/-! ### Termination: the scheduler drains -/

theorem admitCount_le (cap : Concurrency) (p r : Nat) : admitCount cap p r ≤ p := by
  cases cap with
  | bounded k => exact Nat.min_le_left _ _
  | unbounded => exact Nat.le_refl _

theorem stateWeight_eq_zero {st : LimState α} :
    stateWeight st = 0 ↔ st.pending = [] ∧ st.running = [] := by
  unfold stateWeight
  cases hp : st.pending with
  | nil =>
    cases hr : st.running with
    | nil => simp
    | cons r rs => simp
  | cons p ps =>
    cases hr : st.running with
    | nil => simp
    | cons r rs => simp

theorem launchPending_weight (cap : Concurrency) (st : LimState α) :
    stateWeight (launchPending cap st) = stateWeight st := by
  unfold stateWeight launchPending
  set n := admitCount cap st.pending.length st.running.length with hn
  conv_rhs => rw [← List.take_append_drop n st.pending]
  simp only [List.map_append, List.sum_append, List.map_map]
  have hcomp : List.map ((fun (r : RunningTask α) => r.remaining + 1) ∘ startTask)
      (List.take n st.pending) =
      List.map (fun (p : Nat × SimTask α) => p.2.duration + 1) (List.take n st.pending) := rfl
  rw [hcomp]
  omega

theorem tickState_weight (st : LimState α) :
    stateWeight (tickState st) + st.running.length = stateWeight st := by
  unfold stateWeight tickState
  have := tickSplit_weight st.running
  unfold runningWeight at this
  simp only
  omega

theorem launchPending_running_ne_nil (cap : Concurrency) (st : LimState α)
    (hcap : cap.isPos = true) (h : ¬(st.pending = [] ∧ st.running = [])) :
    (launchPending cap st).running ≠ [] := by
  unfold launchPending
  intro hcontr
  rw [List.append_eq_nil] at hcontr
  obtain ⟨hrun, hmap⟩ := hcontr
  have hpend : st.pending ≠ [] := fun hp => h ⟨hp, hrun⟩
  have hplen : 1 ≤ st.pending.length := List.length_pos.mpr hpend
  have hrlen : st.running.length = 0 := by rw [hrun]; rfl
  have htake : (List.take (admitCount cap st.pending.length st.running.length) st.pending).length = 0 := by
    rw [List.map_eq_nil_iff] at hmap
    rw [hmap]; rfl
  rw [List.length_take] at htake
  cases cap with
  | bounded k =>
    have hk : k ≠ 0 := by simpa [Concurrency.isPos] using hcap
    have hadm : admitCount (.bounded k) st.pending.length st.running.length =
        min st.pending.length (k - st.running.length) := rfl
    rw [hadm] at htake
    omega
  | unbounded =>
    have hadm : admitCount .unbounded st.pending.length st.running.length =
        st.pending.length := rfl
    rw [hadm] at htake
    omega

theorem simLoop_drains (cap : Concurrency) (hcap : cap.isPos = true) :
    ∀ (fuel : Nat) (st : LimState α), stateWeight st ≤ fuel →
      (simLoop cap fuel st).pending = [] ∧ (simLoop cap fuel st).running = [] := by
  intro fuel
  induction fuel with
  | zero =>
    intro st h
    exact stateWeight_eq_zero.mp (Nat.le_zero.mp h)
  | succ fuel ih =>
    intro st h
    rw [simLoop]
    by_cases he : st.pending.isEmpty && st.running.isEmpty
    · rw [if_pos he]
      simp only [Bool.and_eq_true, List.isEmpty_iff] at he
      exact he
    · rw [if_neg he]
      apply ih
      have hne : ¬(st.pending = [] ∧ st.running = []) := by
        simpa [List.isEmpty_iff] using he
      have hrun : (launchPending cap st).running ≠ [] := launchPending_running_ne_nil cap st hcap hne
      have hlen : 1 ≤ (launchPending cap st).running.length := List.length_pos.mpr hrun
      have hw1 : stateWeight (launchPending cap st) = stateWeight st := launchPending_weight cap st
      have hw2 : stateWeight (tickState (launchPending cap st)) +
          (launchPending cap st).running.length = stateWeight (launchPending cap st) :=
        tickState_weight _
      unfold stepState
      omega

theorem stateWeight_init (tasks : List (SimTask α)) :
    stateWeight (initState tasks) = initFuel tasks := by
  unfold stateWeight initState initFuel
  simp only [List.map_nil, List.sum_nil, Nat.add_zero]
  induction tasks with
  | nil => rfl
  | cons t l ih =>
    have step : ∀ (k : Nat) (l2 : List (SimTask α)),
        ((enumFrom k l2).map (fun p => p.2.duration + 1)).sum =
          (l2.map (fun t2 => t2.duration + 1)).sum := by
      intro k l2
      induction l2 generalizing k with
      | nil => rfl
      | cons t2 l2 ih2 => simp [enumFrom, ih2]
    exact step 0 (t :: l)

/-! ### The limiter returns every task's own outcome at its own index -/

theorem limitConcurrency_length (cap : Concurrency) (tasks : List (SimTask α)) :
    (limitConcurrency cap tasks).length = tasks.length := by
  simp [limitConcurrency]

theorem limitConcurrency_eq_map {α : Type} (cap : Concurrency) (tasks : List (SimTask α))
    (hcap : cap.isPos = true) :
    limitConcurrency cap tasks = tasks.map SimTask.outcome := by
  have hinv : SimInv tasks (simLoop cap (initFuel tasks) (initState tasks)) :=
    simInv_simLoop cap (initFuel tasks) (initState tasks) (simInv_init tasks)
  have hdrain := simLoop_drains cap hcap (initFuel tasks) (initState tasks)
    (Nat.le_of_eq (stateWeight_init tasks))
  have hall : ∀ i, i < tasks.length →
      (simLoop cap (initFuel tasks) (initState tasks)).results i = outcomeAt tasks i := by
    intro i hi
    rcases hinv.covered i hi with hres | ⟨p, hp, _⟩ | ⟨r, hr, _⟩
    · obtain ⟨o, ho⟩ := Option.isSome_iff_exists.mp hres
      rw [ho, hinv.results_ok i o ho]
    · rw [hdrain.1] at hp
      exact absurd hp (List.not_mem_nil p)
    · rw [hdrain.2] at hr
      exact absurd hr (List.not_mem_nil r)
  apply List.ext_get?
  intro n
  by_cases hn : n < tasks.length
  · have ht : tasks.get? n = some (tasks.get ⟨n, hn⟩) := List.get?_eq_get hn
    have hres : (simLoop cap (initFuel tasks) (initState tasks)).results n =
        some ((tasks.get ⟨n, hn⟩).outcome) := by
      rw [hall n hn]
      unfold outcomeAt
      rw [ht]
      rfl
    unfold limitConcurrency
    rw [List.get?_map, List.get?_map, List.get?_range hn, ht]
    simp [hres]
  · rw [List.get?_eq_none.mpr (by rw [limitConcurrency_length]; omega),
      List.get?_eq_none.mpr (by rw [List.length_map]; omega)]

theorem launchPending_unsettled (cap : Concurrency) (st : LimState α) :
    unsettledCount (launchPending cap st) = unsettledCount st := by
  unfold unsettledCount launchPending
  have hle := admitCount_le cap st.pending.length st.running.length
  simp only [List.length_drop, List.length_append, List.length_map, List.length_take]
  omega

theorem tickState_unsettled_le (st : LimState α) :
    unsettledCount (tickState st) ≤ unsettledCount st := by
  unfold unsettledCount tickState
  have := tickSplit_length st.running
  simp only
  omega

theorem launchPending_bounded_eq (k : Nat) (st : LimState α)
    (h : unsettledCount st ≤ k) :
    launchPending (.bounded k) st = launchPending .unbounded st := by
  unfold launchPending
  have heq : admitCount (.bounded k) st.pending.length st.running.length =
      admitCount .unbounded st.pending.length st.running.length := by
    show min st.pending.length (k - st.running.length) = st.pending.length
    unfold unsettledCount at h
    omega
  rw [heq]

theorem simLoop_bounded_eq_unbounded (k : Nat) :
    ∀ (fuel : Nat) (st : LimState α), unsettledCount st ≤ k →
      simLoop (.bounded k) fuel st = simLoop .unbounded fuel st := by
  intro fuel
  induction fuel with
  | zero => intro st _; rfl
  | succ fuel ih =>
    intro st h
    rw [simLoop, simLoop]
    by_cases he : st.pending.isEmpty && st.running.isEmpty
    · rw [if_pos he, if_pos he]
    · rw [if_neg he, if_neg he]
      have hstep : stepState (.bounded k) st = stepState .unbounded st := by
        unfold stepState
        rw [launchPending_bounded_eq k st h]
      rw [hstep]
      apply ih
      have h1 : unsettledCount (stepState .unbounded st) ≤ unsettledCount st := by
        unfold stepState
        calc unsettledCount (tickState (launchPending .unbounded st)) ≤
            unsettledCount (launchPending .unbounded st) := tickState_unsettled_le _
          _ = unsettledCount st := launchPending_unsettled _ _
      omega

theorem limitConcurrency_bounded_eq_unbounded {α : Type} (k : Nat) (tasks : List (SimTask α))
    (h : tasks.length ≤ k) :
    limitConcurrency (.bounded k) tasks = limitConcurrency .unbounded tasks := by
  unfold limitConcurrency
  rw [simLoop_bounded_eq_unbounded k (initFuel tasks) (initState tasks)]
  unfold unsettledCount initState
  simpa [enumFrom_length] using h

theorem heartbeatTickTimes_lt_stop {intervalMs stopTime : Nat} (hiv : 0 < intervalMs) :
    ∀ t ∈ heartbeatTickTimes intervalMs stopTime, t < stopTime := by
  intro t ht
  unfold heartbeatTickTimes tickIndexCount at ht
  rw [if_neg (Nat.pos_iff_ne_zero.mp hiv)] at ht
  obtain ⟨j, hj, rfl⟩ := List.mem_map.mp ht
  rw [List.mem_range] at hj
  have h1 : ((stopTime + intervalMs - 1) / intervalMs) * intervalMs ≤ stopTime + intervalMs - 1 :=
    Nat.div_mul_le_self _ _
  have h2 : j + 2 ≤ (stopTime + intervalMs - 1) / intervalMs := by omega
  have h3 : (j + 2) * intervalMs ≤ ((stopTime + intervalMs - 1) / intervalMs) * intervalMs :=
    Nat.mul_le_mul_right _ h2
  have h4 : (j + 2) * intervalMs = (j + 1) * intervalMs + intervalMs := Nat.succ_mul (j + 1) intervalMs
  omega

theorem heartbeatTickTimes_get? (intervalMs stopTime j : Nat)
    (hj : j < tickIndexCount intervalMs stopTime) :
    (heartbeatTickTimes intervalMs stopTime).get? j = some ((j + 1) * intervalMs) := by
  unfold heartbeatTickTimes
  rw [List.get?_map, List.get?_range hj]
  rfl

theorem heartbeatOutput_stopped_early (total : Nat) (conc : Concurrency)
    (intervalMs stopTime : Nat) (completedCountAt : Nat → Nat)
    (h : stopTime ≤ intervalMs) :
    heartbeatOutput total conc intervalMs stopTime completedCountAt = [] := by
  unfold heartbeatOutput heartbeatTickTimes tickIndexCount
  by_cases hiv : intervalMs = 0
  · simp [hiv]
  · rw [if_neg hiv]
    have hivp : 1 ≤ intervalMs := Nat.one_le_iff_ne_zero.mpr hiv
    have h2 : stopTime + intervalMs - 1 < intervalMs * 2 := by omega
    have h3 : (stopTime + intervalMs - 1) / intervalMs < 2 := Nat.div_lt_of_lt_mul h2
    have h4 : (stopTime + intervalMs - 1) / intervalMs - 1 = 0 := by omega
    simp [h4]

/-! ## Supporting lemmas about the argument parser -/

theorem stepArg_agents_consume2 {a v : String} {o o2 : CommonOptions}
    (h : stepArg a v o = .consume2 o2) :
    o2.agents = o.agents ∨ (v ∈ ALL_AGENTS ∧ o2.agents = o.agents ++ [v]) := by
  unfold stepArg at h
  repeat' split at h
  all_goals cases h
  all_goals simp_all

theorem stepArg_agents_consume1 {a v : String} {o o1 : CommonOptions}
    (h : stepArg a v o = .consume1 o1) :
    o1.agents = o.agents := by
  unfold stepArg at h
  repeat' split at h
  all_goals cases h
  all_goals simp_all

theorem parseArgsFrom_agents_subset (l : List String) (st : CommonOptions) :
    ∀ (o : CommonOptions), parseArgsFrom l st = .ok o →
      (∀ a ∈ st.agents, a ∈ ALL_AGENTS) → ∀ a ∈ o.agents, a ∈ ALL_AGENTS := by
  induction l, st using parseArgsFrom.induct with
  | case1 st =>
    intro o h hst
    rw [parseArgsFrom] at h
    obtain rfl := Except.ok.inj h
    exact hst
  | case2 a st =>
    intro o h hst
    rw [parseArgsFrom] at h
    obtain rfl := Except.ok.inj h
    by_cases hd : a = "--dry-run"
    · rw [if_pos hd]
      exact hst
    · rw [if_neg hd]
      exact hst
  | case3 a v rest st e hstep =>
    intro o h hst
    rw [parseArgsFrom, hstep] at h
    cases h
  | case4 a v rest st o2 hstep ih =>
    intro o h hst
    rw [parseArgsFrom, hstep] at h
    refine ih o h ?_
    rcases stepArg_agents_consume2 hstep with heq | ⟨hv, heq⟩ <;> rw [heq]
    · exact hst
    · intro x hx
      rcases List.mem_append.mp hx with hx | hx
      · exact hst x hx
      · rw [List.mem_singleton] at hx
        exact hx ▸ hv
  | case5 a v rest st o1 hstep ih =>
    intro o h hst
    rw [parseArgsFrom, hstep] at h
    refine ih o h ?_
    rw [stepArg_agents_consume1 hstep]
    exact hst

theorem searchProvidersFor_ne_nil (o : CommonOptions) : searchProvidersFor o ≠ [] := by
  unfold searchProvidersFor
  cases o.searchProvider <;> simp

theorem buildRuns_ne_nil {agents providers : List String}
    (ha : agents ≠ []) (hp : providers ≠ []) : buildRuns agents providers ≠ [] := by
  intro h
  have hlen := congrArg List.length h
  rw [buildRuns_length] at hlen
  rcases Nat.mul_eq_zero.mp hlen with h1 | h1
  · exact ha (List.length_eq_zero.mp h1)
  · exact hp (List.length_eq_zero.mp h1)

/-! ## Supporting lemmas about result aggregation -/

theorem computeFailures_eq_nil {results : List Int} :
    computeFailures results = [] ↔ ∀ r ∈ results, r = 0 := by
  unfold computeFailures
  rw [List.filterMap_eq_nil_iff]
  constructor
  · intro h r hr
    obtain ⟨n, hn⟩ := List.mem_iff_get?.mp hr
    have hlt : n < results.length := by
      by_contra hge
      rw [List.get?_eq_none.mpr (Nat.le_of_not_lt hge)] at hn
      cases hn
    obtain ⟨a, ha, hmem⟩ := enumFrom_coverage 0 hlt
    rw [hn] at ha
    obtain rfl := Option.some.inj ha
    have hnone := h (0 + n, r) hmem
    by_contra hne
    rw [if_pos hne] at hnone
    cases hnone
  · intro h p hp
    have h2 := (mem_enumFrom hp).2
    rw [Nat.sub_zero] at h2
    have hm : p.2 ∈ results := List.get?_mem h2
    rw [if_neg]
    intro hne
    exact hne (h p.2 hm)

/-! ## The claims -/

/-- C1: for every ordered task list and every concurrency cap (finite
positive or unbounded), the sequence returned by `limitConcurrency` has
the same length as the task list and its element at index `i` is the
outcome of the task at index `i` — for every assignment of completion
times, hence regardless of the order in which tasks actually complete; in
particular the final result list corresponds positionwise to the run
matrix. -/
theorem claim_limiter_order_preservation {α : Type} (cap : Concurrency)
    (tasks : List (SimTask α)) (hcap : cap.isPos = true) :
    (limitConcurrency cap tasks).length = tasks.length ∧
    ∀ i (hi : i < tasks.length),
      (limitConcurrency cap tasks).get? i = some (tasks.get ⟨i, hi⟩).outcome := by
  have h := limitConcurrency_eq_map cap tasks hcap
  refine ⟨limitConcurrency_length cap tasks, ?_⟩
  intro i hi
  rw [h, List.get?_map, List.get?_eq_get hi]
  rfl

theorem claim_limiter_order_preservation_witness :
    (Concurrency.bounded 2).isPos = true ∧
    (limitConcurrency (.bounded 2)
        [⟨3, .ok 10⟩, ⟨1, .ok 20⟩, ⟨0, .ok 30⟩]).get? 0 = some (TaskOutcome.ok 10) :=
  ⟨by decide,
    (claim_limiter_order_preservation (.bounded 2)
      [⟨3, .ok 10⟩, ⟨1, .ok 20⟩, ⟨0, .ok 30⟩] (by decide)).2 0 (by decide)⟩

/-- C2: if the task at index `j` settles by rejecting, every other task
still settles with its own outcome, the returned sequence still has full
length, and the entry at index `j` is the recorded failure; the limiter is
a total function into a result list, so the rejection neither propagates
as a thrown error nor stops the admission of later pending tasks. -/
theorem claim_limiter_failure_isolation {α : Type} (cap : Concurrency)
    (tasks : List (SimTask α)) (hcap : cap.isPos = true)
    (j : Nat) (e : String) (hj : outcomeAt tasks j = some (.failed e)) :
    (limitConcurrency cap tasks).length = tasks.length ∧
    (limitConcurrency cap tasks).get? j = some (.failed e) ∧
    ∀ i (hi : i < tasks.length),
      (limitConcurrency cap tasks).get? i = some (tasks.get ⟨i, hi⟩).outcome := by
  have h := limitConcurrency_eq_map cap tasks hcap
  refine ⟨limitConcurrency_length cap tasks, ?_, ?_⟩
  · rw [h, List.get?_map]
    exact hj
  · intro i hi
    rw [h, List.get?_map, List.get?_eq_get hi]
    rfl

theorem claim_limiter_failure_isolation_witness :
    (limitConcurrency (.bounded 1)
        [⟨2, .ok 1⟩, ⟨0, .failed "boom"⟩, ⟨1, .ok 3⟩]).get? 1 =
      some (TaskOutcome.failed "boom") :=
  (claim_limiter_failure_isolation (.bounded 1)
    [⟨2, .ok 1⟩, ⟨0, .failed "boom"⟩, ⟨1, .ok 3⟩] (by decide) 1 "boom" (by decide)).2.1

/-- C3: the overall process exit code is 0 exactly when every recorded
exit code is 0: results [0,0,0] give exit code 0, [0,2,0] give a nonzero
code, and the empty result list gives 0. -/
theorem claim_exit_code_policy :
    overallExitCode [0, 0, 0] = 0 ∧ overallExitCode [0, 2, 0] ≠ 0 ∧ overallExitCode [] = 0 ∧
    ∀ results : List Int, (overallExitCode results = 0 ↔ ∀ r ∈ results, r = 0) := by
  refine ⟨by decide, by decide, by decide, ?_⟩
  intro results
  unfold overallExitCode handleExit
  by_cases hf : computeFailures results = []
  · rw [if_pos (List.isEmpty_iff.mpr hf)]
    constructor
    · intro _ r hr
      exact computeFailures_eq_nil.mp hf r hr
    · intro _
      rfl
  · rw [if_neg (fun hc => hf (List.isEmpty_iff.mp hc))]
    constructor
    · intro h
      exact absurd h one_ne_zero
    · intro hall
      exact absurd (computeFailures_eq_nil.mpr hall) hf

theorem claim_exit_code_policy_witness :
    overallExitCode [0, 0, 0] = 0 ∧ overallExitCode [] = 0 :=
  ⟨claim_exit_code_policy.1, claim_exit_code_policy.2.2.1⟩

/-- C4: `parseCommonArgs` maps a concurrency flag value of exactly "0" to
the unbounded sentinel, maps any value parsing to a positive integer `n`
to the finite cap `n`, and throws for any value that parses negative or is
not parseable as an integer. -/
theorem claim_concurrency_flag_parsing (v : String) :
    (v = "0" → parseCommonArgs ["-j", v] =
      .ok { initOptions with agents := ALL_AGENTS, concurrency := some .unbounded }) ∧
    (∀ n : Int, parseIntJS v = some n → 0 < n →
      parseCommonArgs ["-j", v] =
        .ok { initOptions with agents := ALL_AGENTS, concurrency := some (.bounded n.toNat) }) ∧
    (∀ n : Int, parseIntJS v = some n → n < 0 →
      parseCommonArgs ["-j", v] = .error ("Invalid concurrency: " ++ v)) ∧
    (parseIntJS v = none → ∃ e, parseCommonArgs ["-j", v] = .error e) := by
  have hempty : parseIntJS "" = none := by decide
  have hbranch : ∀ o : CommonOptions, stepArg "-j" v o =
      (if v = "" then .err "Missing value for concurrency flag"
       else
        match parseIntJS v with
        | none => .err ("Invalid concurrency: " ++ v)
        | some n =>
          if n < 0 then .err ("Invalid concurrency: " ++ v)
          else if n = 0 then .consume2 { o with concurrency := some .unbounded }
          else .consume2 { o with concurrency := some (.bounded n.toNat) }) := by
    intro o
    unfold stepArg
    rw [if_neg (by decide), if_neg (by decide), if_neg (by decide), if_pos (Or.inl rfl)]
  refine ⟨?_, ?_, ?_, ?_⟩
  · rintro rfl
    decide
  · intro n hn hpos
    have hv : v ≠ "" := by
      rintro rfl
      rw [hempty] at hn
      cases hn
    unfold parseCommonArgs parseArgsFrom
    rw [hbranch, if_neg hv]
    simp only [hn]
    rw [if_neg (by omega : ¬ n < 0), if_neg (by omega : ¬ n = 0)]
    rfl
  · intro n hn hneg
    have hv : v ≠ "" := by
      rintro rfl
      rw [hempty] at hn
      cases hn
    unfold parseCommonArgs parseArgsFrom
    rw [hbranch, if_neg hv]
    simp only [hn]
    rw [if_pos hneg]
  · intro hn
    by_cases hv : v = ""
    · refine ⟨"Missing value for concurrency flag", ?_⟩
      unfold parseCommonArgs parseArgsFrom
      rw [hbranch, if_pos hv]
    · refine ⟨"Invalid concurrency: " ++ v, ?_⟩
      unfold parseCommonArgs parseArgsFrom
      rw [hbranch, if_neg hv]
      simp only [hn]

theorem claim_concurrency_flag_parsing_witness :
    parseCommonArgs ["-j", "0"] =
      .ok { initOptions with agents := ALL_AGENTS, concurrency := some .unbounded } ∧
    parseCommonArgs ["-j", "3"] =
      .ok { initOptions with agents := ALL_AGENTS, concurrency := some (.bounded 3) } ∧
    parseCommonArgs ["-j", "-2"] = .error ("Invalid concurrency: " ++ "-2") ∧
    ∃ e, parseCommonArgs ["-j", "abc"] = .error e :=
  ⟨(claim_concurrency_flag_parsing "0").1 rfl,
   (claim_concurrency_flag_parsing "3").2.1 3 (by decide) (by decide),
   (claim_concurrency_flag_parsing "-2").2.2.1 (-2) (by decide) (by decide),
   (claim_concurrency_flag_parsing "abc").2.2.2 (by decide)⟩

/-- C5: every runner invocation built from the matrix carries exactly the
environment variables SEARCH_PROVIDER (set to the scenario's provider),
DATASET (set to the resolved mode) and PROMPT_CONCURRENCY (the configured
prompt-concurrency value passed through unchanged), and the
prompt-concurrency value defaults to 1 when not given. -/
theorem claim_scenario_env_vars (runs : List RunConfig) (mode : String) (pc : Nat) :
    (∀ inv ∈ buildInvocations runs mode pc,
      inv.envVars = ["-e", "SEARCH_PROVIDER=" ++ inv.searchProvider,
        "-e", "DATASET=" ++ mode, "-e", "PROMPT_CONCURRENCY=" ++ toString pc]) ∧
    ∀ o : CommonOptions, o.promptConcurrency = none → effectivePromptConcurrency o = 1 := by
  constructor
  · intro inv hinv
    obtain ⟨p, hp, rfl⟩ := List.mem_map.mp hinv
    rfl
  · intro o h
    unfold effectivePromptConcurrency
    rw [h]
    rfl

theorem claim_scenario_env_vars_witness :
    ({ agent := "gemini", searchProvider := "you",
       envVars := scenarioEnvVars "you" "test" 2,
       label := scenarioLabel 0 1 "gemini" "you" } : Invocation).envVars =
      ["-e", "SEARCH_PROVIDER=" ++ "you", "-e", "DATASET=" ++ "test",
       "-e", "PROMPT_CONCURRENCY=" ++ toString 2] :=
  (claim_scenario_env_vars [⟨"gemini", "you"⟩] "test" 2).1 _ (by decide)

/-- C6: the completed set contains exactly the 1-based ids (matrix index
plus one) of the scenarios whose runner invocation has finished: after any
sequence of completion events, in any completion order, membership in the
set is equivalent to being the successor of a finished scenario's
index. -/
theorem claim_completed_set_ids (events : List Nat) (i : Nat) :
    i ∈ completedAfter events ↔ ∃ j ∈ events, i = j + 1 := by
  unfold completedAfter
  rw [completedAfter_from events ∅ i]
  simp

theorem claim_completed_set_ids_witness : 3 ∈ completedAfter [2, 0] :=
  (claim_completed_set_ids [2, 0] 3).mpr ⟨2, by simp, rfl⟩

/-- C7: with the 30000 ms interval configured by `main`, the heartbeat
fires at times 30000, 60000, ... — a fixed 30000 ms period — each emitted
line reports the completion count current at its own tick time together
with the total count and the concurrency setting; every tick happens
strictly before the stop time (no output after the heartbeat is cleared,
which happens when the limiter settles), and stopping before the first
tick yields no output at all. -/
theorem claim_heartbeat_schedule (total : Nat) (conc : Concurrency) (stopTime : Nat)
    (completedCountAt : Nat → Nat) :
    (∀ j, j < tickIndexCount mainHeartbeatIntervalMs stopTime →
      (heartbeatTickTimes mainHeartbeatIntervalMs stopTime).get? j =
        some ((j + 1) * mainHeartbeatIntervalMs)) ∧
    (∀ line ∈ heartbeatOutput total conc mainHeartbeatIntervalMs stopTime completedCountAt,
      line.completedCount = completedCountAt line.elapsedMs ∧ line.total = total ∧
      line.concurrency = conc ∧ line.elapsedMs < stopTime) ∧
    (stopTime ≤ mainHeartbeatIntervalMs →
      heartbeatOutput total conc mainHeartbeatIntervalMs stopTime completedCountAt = []) := by
  refine ⟨fun j hj => heartbeatTickTimes_get? _ _ j hj, ?_,
    heartbeatOutput_stopped_early total conc _ stopTime completedCountAt⟩
  intro line hline
  obtain ⟨t, ht, rfl⟩ := List.mem_map.mp hline
  exact ⟨rfl, rfl, rfl, heartbeatTickTimes_lt_stop (by decide) t ht⟩

theorem claim_heartbeat_schedule_witness :
    (heartbeatTickTimes mainHeartbeatIntervalMs 100000).get? 2 = some ((2 + 1) * mainHeartbeatIntervalMs) ∧
    heartbeatOutput 8 .unbounded mainHeartbeatIntervalMs 20000 (fun _ => 0) = [] :=
  ⟨(claim_heartbeat_schedule 8 .unbounded 100000 (fun _ => 0)).1 2 (by decide),
   (claim_heartbeat_schedule 8 .unbounded 20000 (fun _ => 0)).2.2 (by decide)⟩

/-- C8: the limiter applied to the empty task list returns the empty
sequence immediately for any cap, and a finite cap of at least the task
count behaves identically to the unbounded sentinel — the whole scheduler
run is step-for-step identical, hence so is the result. -/
theorem claim_limiter_edge_cases {α : Type} :
    (∀ cap : Concurrency, limitConcurrency cap ([] : List (SimTask α)) = []) ∧
    (∀ (k : Nat) (tasks : List (SimTask α)), tasks.length ≤ k →
      (∀ fuel, simLoop (.bounded k) fuel (initState tasks) =
        simLoop .unbounded fuel (initState tasks)) ∧
      limitConcurrency (.bounded k) tasks = limitConcurrency .unbounded tasks) := by
  constructor
  · intro cap
    rfl
  · intro k tasks h
    have hcount : unsettledCount (initState tasks) ≤ k := by
      unfold unsettledCount initState
      simpa [enumFrom_length] using h
    exact ⟨fun fuel => simLoop_bounded_eq_unbounded k fuel _ hcount,
      limitConcurrency_bounded_eq_unbounded k tasks h⟩

theorem claim_limiter_edge_cases_witness :
    limitConcurrency (.bounded 5) [⟨1, TaskOutcome.ok 7⟩, ⟨0, TaskOutcome.ok 8⟩] =
      limitConcurrency .unbounded [⟨1, TaskOutcome.ok 7⟩, ⟨0, TaskOutcome.ok 8⟩] :=
  ((claim_limiter_edge_cases (α := Nat)).2 5
    [⟨1, TaskOutcome.ok 7⟩, ⟨0, TaskOutcome.ok 8⟩] (by decide)).2

/-- C9: with the dry-run flag the effect trace of `main` is exactly the
plan header, one plan line per scenario (1-based index, agent, provider
and the derived docker command), the closing line and exit with code 0;
the heartbeat never starts and no scenario runs. -/
theorem claim_dry_run_plan (runs : List RunConfig) (mode : String) (pc : Nat)
    (results : List Int) :
    mainTrace runs mode pc true results =
      MainAction.printLine "[DRY RUN] Execution plan:" ::
        ((enumFrom 0 runs).map
            (fun p => MainAction.printLine (dryRunPlanLine p.1 runs.length p.2 mode pc)) ++
          [MainAction.printLine "[DRY RUN] No services were executed.",
           MainAction.exitWith 0]) ∧
    MainAction.startHeartbeat ∉ mainTrace runs mode pc true results ∧
    (∀ i, MainAction.runScenario i ∉ mainTrace runs mode pc true results) ∧
    (mainTrace runs mode pc true results).getLast? = some (MainAction.exitWith 0) := by
  refine ⟨rfl, ?_, ?_, ?_⟩
  · intro hmem
    simp only [mainTrace, if_pos, List.mem_cons, List.mem_append, List.mem_map] at hmem
    rcases hmem with h | ⟨p, _, h⟩ | h | h | h <;> cases h
  · intro i hmem
    simp only [mainTrace, if_pos, List.mem_cons, List.mem_append, List.mem_map] at hmem
    rcases hmem with h | ⟨p, _, h⟩ | h | h | h <;> cases h
  · have hsplit : mainTrace runs mode pc true results =
        (MainAction.printLine "[DRY RUN] Execution plan:" ::
          ((enumFrom 0 runs).map
              (fun p => MainAction.printLine (dryRunPlanLine p.1 runs.length p.2 mode pc)) ++
            [MainAction.printLine "[DRY RUN] No services were executed."])) ++
          [MainAction.exitWith 0] := by
      simp [mainTrace]
    rw [hsplit, List.getLast?_concat]

theorem claim_dry_run_plan_witness :
    mainTrace [⟨"codex", "builtin"⟩] "test" 1 true [] =
      [MainAction.printLine "[DRY RUN] Execution plan:",
       MainAction.printLine (dryRunPlanLine 0 1 ⟨"codex", "builtin"⟩ "test" 1),
       MainAction.printLine "[DRY RUN] No services were executed.",
       MainAction.exitWith 0] := by
  have h := (claim_dry_run_plan [⟨"codex", "builtin"⟩] "test" 1 []).1
  simpa [enumFrom] using h

/-- C10: whenever `parseCommonArgs` succeeds the returned agents list is
non-empty and every entry is one of ALL_AGENTS (an unknown --agent value
makes it throw, and with no --agent flag the full list is returned), so
the agent × provider matrix built from it is never empty. -/
theorem claim_agents_nonempty (args : List String) (o : CommonOptions)
    (h : parseCommonArgs args = .ok o) :
    o.agents ≠ [] ∧ (∀ a ∈ o.agents, a ∈ ALL_AGENTS) ∧
    buildRuns o.agents (searchProvidersFor o) ≠ [] := by
  unfold parseCommonArgs at h
  cases hp : parseArgsFrom args initOptions with
  | error e =>
    rw [hp] at h
    cases h
  | ok o1 =>
    rw [hp] at h
    obtain rfl := Except.ok.inj h
    have hsub1 : ∀ a ∈ o1.agents, a ∈ ALL_AGENTS :=
      parseArgsFrom_agents_subset args initOptions o1 hp (by simp [initOptions])
    have hagents : (if o1.agents.isEmpty then ALL_AGENTS else o1.agents) ≠ [] := by
      by_cases he : o1.agents.isEmpty
      · rw [if_pos he]
        decide
      · rw [if_neg he]
        exact fun hnil => he (List.isEmpty_iff.mpr hnil)
    have hsub : ∀ a ∈ (if o1.agents.isEmpty then ALL_AGENTS else o1.agents), a ∈ ALL_AGENTS := by
      by_cases he : o1.agents.isEmpty
      · rw [if_pos he]
        exact fun a ha => ha
      · rw [if_neg he]
        exact hsub1
    exact ⟨hagents, hsub, buildRuns_ne_nil hagents (searchProvidersFor_ne_nil _)⟩

theorem claim_agents_nonempty_witness :
    ({ agents := ALL_AGENTS, mode := none, searchProvider := none, concurrency := none,
       promptConcurrency := none, dryRun := false } : CommonOptions).agents ≠ [] :=
  (claim_agents_nonempty [] _ (by decide)).1

end WebSearchEvals

